import Mathlib

/-!
Verification development for the SEC EDGAR statement-scraper core
(`sec_edgar_scraper/scraper.py` and `test/edgar_functions.py`).

Strings are modelled as `List Char` (Python `str`); all string-processing
definitions below are translated from the Python source.  Numeric cell values
use `ℚ` in place of Python binary floats (all quantities the claims touch are
exactly representable), and `ℤ` where the source works with Python `int`.
-/

namespace Edgar

/-- Digit-string to natural number, mirroring positional decimal reading. -/
def digitsToNat (s : List Char) : Nat :=
  s.foldl (fun a c => a * 10 + (c.toNat - 48)) 0

/-- Python `str.strip()`: drop whitespace from both ends.  (`Char.isWhitespace`
covers space, tab, CR, LF — the whitespace forms occurring in the data.) -/
def pyTrim (s : List Char) : List Char :=
  ((s.dropWhile Char.isWhitespace).reverse.dropWhile Char.isWhitespace).reverse

/-- ASCII model of Python `str.lower` applied to one character. -/
def lowerChar (c : Char) : Char :=
  if 65 ≤ c.toNat ∧ c.toNat ≤ 90 then Char.ofNat (c.toNat + 32) else c

/-- Python `str.lower`, characterwise (the strings involved are ASCII). -/
def lowerL (s : List Char) : List Char := s.map lowerChar

/-- Does `p` occur at the head of `s`? -/
def leadsWith : List Char → List Char → Bool
  | [], _ => true
  | _ :: _, [] => false
  | a :: p, b :: s => a = b && leadsWith p s

/-- Python `p in s` substring test. -/
def containsSub (p : List Char) : List Char → Bool
  | [] => p.isEmpty
  | c :: rest => leadsWith p (c :: rest) || containsSub p rest

/-- First-match association-list lookup, modelling Python `dict.get` (dict keys
are unique, so first match agrees with the dict). -/
def lookupAssoc {α : Type} : List (List Char × α) → List Char → Option α
  | [], _ => none
  | (k, v) :: rest, key => if k = key then some v else lookupAssoc rest key

/-- Python `int(str)` restricted to the strings this program can feed it:
after `re.sub(r'[^\d.-]', '', _)` the argument consists of digits, `.` and `-`
only (so the whitespace/underscore allowances of `int` can never fire).  An
optional single leading minus followed by one or more digits parses; anything
else (empty, embedded `-`, any `.`) raises `ValueError`, modelled as `none`. -/
def pyIntParse (s : List Char) : Option Int :=
  match s with
  | [] => none
  | c :: rest =>
    if c = '-' then
      if rest ≠ [] ∧ rest.all Char.isDigit then some (-(digitsToNat rest : Int)) else none
    else
      if (c :: rest).all Char.isDigit then some ((digitsToNat (c :: rest) : Int)) else none

/-- The missing-value markers of `SecEdgarScraper.__standardize_number`. -/
def markers : List (List Char) :=
  ["N/A".data, "--".data, [], "nan".data, "NAN".data]

/-- Characters kept by `re.sub(r'[^\d.-]', '', number_str)`. -/
def keepNumChar (c : Char) : Bool := c.isDigit || c = '.' || c = '-'

/-- `SecEdgarScraper.__standardize_number` (scraper.py).  The initial
`float`-NaN guard concerns a non-string argument and is outside this
string-typed model; every other step is translated directly. -/
def standardize_number (s : List Char) (multiplier : Int) : Option Int :=
  if pyTrim s ∈ markers then none
  else
    let negative := s.contains '(' && s.contains ')'
    let s1 := if negative then s.filter (fun c => c ≠ '(' && c ≠ ')') else s
    let isCurrency := s1.contains '$'
    let s2 := s1.filter keepNumChar
    match pyIntParse s2 with
    | none => none
    | some n =>
      let n' := if negative then -n else n
      some (if isCurrency then n' * multiplier else n')

/-- One pass of Python `str.replace(old, new)` (replace all non-overlapping
occurrences, left to right), with explicit fuel for structural recursion; each
step consumes at least one input character when `old` is nonempty, so fuel
`s.length` is exact. -/
def replaceFuel (old new : List Char) : Nat → List Char → List Char
  | 0, l => l
  | _ + 1, [] => []
  | fuel + 1, c :: rest =>
    if leadsWith old (c :: rest) then
      new ++ replaceFuel old new fuel ((c :: rest).drop old.length)
    else
      c :: replaceFuel old new fuel rest

/-- Python `s.replace(old, new)` for nonempty `old`. -/
def pyReplace (s old new : List Char) : List Char := replaceFuel old new s.length s

/-- `zip(calendar.month_abbr[1:], calendar.month_name[1:])`. -/
def monthPairs : List (List Char × List Char) :=
  [("Jan".data, "January".data), ("Feb".data, "February".data), ("Mar".data, "March".data),
   ("Apr".data, "April".data), ("May".data, "May".data), ("Jun".data, "June".data),
   ("Jul".data, "July".data), ("Aug".data, "August".data), ("Sep".data, "September".data),
   ("Oct".data, "October".data), ("Nov".data, "November".data), ("Dec".data, "December".data)]

/-- `SecEdgarScraper.__standardize_date` (identical in both source files):
sequentially replace each month abbreviation with the full month name. -/
def standardize_date (d : List Char) : List Char :=
  monthPairs.foldl (fun acc p => pyReplace acc p.1 p.2) d

/-- A calendar date as year/month/day numbers. -/
structure SimpleDate where
  year : Nat
  month : Nat
  day : Nat
deriving DecidableEq

/-- Full month names with their numbers, for date parsing. -/
def monthNames : List (List Char × Nat) :=
  [("January".data, 1), ("February".data, 2), ("March".data, 3), ("April".data, 4),
   ("May".data, 5), ("June".data, 6), ("July".data, 7), ("August".data, 8),
   ("September".data, 9), ("October".data, 10), ("November".data, 11), ("December".data, 12)]

/-- Model of `pd.to_datetime` (an external library call) on strings of the
shape produced here, `"<full month name> <day>, <year>"`. -/
def parseUSDate (s : List Char) : Option SimpleDate :=
  monthNames.findSome? (fun p =>
    if leadsWith p.1 s then
      match s.drop p.1.length with
      | ' ' :: rest2 =>
        match (rest2.dropWhile Char.isDigit) with
        | ',' :: ' ' :: yearDigits =>
          if rest2.takeWhile Char.isDigit ≠ [] ∧ yearDigits ≠ [] ∧
              yearDigits.all Char.isDigit then
            some ⟨digitsToNat yearDigits, p.2, digitsToNat (rest2.takeWhile Char.isDigit)⟩
          else none
        | _ => none
      | _ => none
    else none)

/-- The per-date work of `__get_datetime_index_dates_from_statement`
(edgar_functions.py): `__standardize_date(date).replace(".", "")` followed by
the `pd.to_datetime` parse. -/
def normalize_date (s : List Char) : Option SimpleDate :=
  parseUSDate ((standardize_date s).filter (fun c => c ≠ '.'))

/-- The synonyms declared for `balance_sheet` in `self.statement_keys_map`
(scraper.py), in source order. -/
def balanceSheetKeys : List (List Char) :=
  ["balance sheet".data, "balance sheets".data, "statement of financial position".data,
   "consolidated balance sheets".data, "consolidated balance sheet".data,
   "consolidated financial position".data, "consolidated balance sheets - southern".data,
   "consolidated statements of financial position".data,
   "consolidated statement of financial position".data,
   "consolidated statements of financial condition".data,
   "combined and consolidated balance sheet".data,
   "condensed consolidated balance sheets".data,
   "consolidated balance sheets, as of december 31".data,
   "dow consolidated balance sheets".data,
   "consolidated balance sheets (unaudited)".data]

/-- The synonyms declared for `income_statement` in `self.statement_keys_map`
(scraper.py), in source order. -/
def incomeStatementKeys : List (List Char) :=
  ["income statement".data, "income statements".data, "statement of earnings (loss)".data,
   "statements of consolidated income".data, "consolidated statements of operations".data,
   "consolidated statement of operations".data, "consolidated statements of earnings".data,
   "consolidated statement of earnings".data, "consolidated statements of income".data,
   "consolidated statement of income".data, "consolidated income statements".data,
   "consolidated income statement".data, "condensed consolidated statements of earnings".data,
   "condensed consolidated statements of income".data,
   "consolidated results of operations".data,
   "consolidated statements of income (loss)".data,
   "consolidated statements of income - southern".data,
   "consolidated statements of operations and comprehensive income".data,
   "consolidated statements of comprehensive income".data,
   "consolidated statements of comprehensive income (unaudited)".data]

/-- The synonyms declared for `cash_flow_statement` in `self.statement_keys_map`
(scraper.py), in source order. -/
def cashFlowKeys : List (List Char) :=
  ["cash flows statement".data, "cash flows statements".data, "statement of cash flows".data,
   "statements of consolidated cash flows".data,
   "consolidated statements of cash flows".data, "consolidated statement of cash flows".data,
   "consolidated statement of cash flow".data, "consolidated cash flows statements".data,
   "consolidated cash flow statements".data,
   "condensed consolidated statements of cash flows".data,
   "consolidated statements of cash flows (unaudited)".data,
   "consolidated statements of cash flows - southern".data]

/-- `self.statement_keys_map` (scraper.py lines 50-104). -/
def statementKeysMap : List (List Char × List (List Char)) :=
  [("balance_sheet".data, balanceSheetKeys),
   ("income_statement".data, incomeStatementKeys),
   ("cash_flow_statement".data, cashFlowKeys)]

/-- The statement-file resolution loop of `get_statement_soup` (scraper.py
lines 338-343): iterate `statement_keys_map.get(statement_name.lower(), [])`
in order and return the first catalog hit; an empty-string file name is falsy
in Python and is skipped. -/
def locate (catalog : List (List Char × List Char)) (statementName : List Char) :
    Option (List Char) :=
  ((lookupAssoc statementKeysMap (lowerL statementName)).getD []).findSome? (fun key =>
    match lookupAssoc catalog (lowerL key) with
    | some f => if f = [] then none else some f
    | none => none)

/-- The class of a cell selected by `row.select("td.text, td.nump, td.num")`
in `__extract_columns_values_and_dates_from_statement` (edgar_functions.py). -/
inductive CellKind where
  | text
  | nump
  | num
deriving DecidableEq

/-- A selected table cell: its class and its visible text. -/
structure Cell where
  kind : CellKind
  text : List Char
deriving DecidableEq

/-- `cell.text.replace("$", "").replace(",", "").replace("(", "").replace(")", "")`:
each `replace(c, "")` deletes every occurrence of the character. -/
def removeCellChars (s : List Char) : List Char :=
  s.filter (fun c => c ≠ '$' && c ≠ ',' && c ≠ '(' && c ≠ ')')

/-- `SecEdgarScraper.__keep_numbers_and_decimals_only_in_string`
(edgar_functions.py): keep exactly the characters of `"1234567890."`. -/
def keep_numbers_and_decimals_only_in_string (s : List Char) : List Char :=
  s.filter (fun c => c.isDigit || c = '.')

/-- The cell-cleaning pipeline of the extractor: character removal, `strip()`,
then the digits-and-dots filter. -/
def cleanCellText (s : List Char) : List Char :=
  keep_numbers_and_decimals_only_in_string (pyTrim (removeCellChars s))

/-- Python `float(str)` on strings made of digits and dots (the only strings
this program feeds it, by construction of `cleanCellText`): at most one dot
and at least one digit parse to the obvious rational; anything else raises
`ValueError`, modelled as `none`. -/
def parsePyFloat (s : List Char) : Option ℚ :=
  if s.all (fun c => c.isDigit || c = '.') then
    if s.count '.' = 0 then
      if s ≠ [] then some ((digitsToNat s : ℚ)) else none
    else if s.count '.' = 1 then
      if s.takeWhile (fun c => c ≠ '.') ≠ [] ∨ ((s.dropWhile (fun c => c ≠ '.')).tail) ≠ [] then
        some ((digitsToNat (s.takeWhile (fun c => c ≠ '.')) : ℚ) +
          (digitsToNat ((s.dropWhile (fun c => c ≠ '.')).tail) : ℚ) /
            (10 ^ ((s.dropWhile (fun c => c ≠ '.')).tail).length))
      else none
    else none
  else none

/-- An exception escaping the per-row cell loop of the extractor: `values[i]`
with `i` out of range (`IndexError`) or a failing `float(value)` (`ValueError`).
Either aborts `__extract_columns_values_and_dates_from_statement` and is caught
in `get_one_statement`, which then returns `None`. -/
inductive RowError where
  | indexError
  | valueError
deriving DecidableEq

instance {ε α : Type} [DecidableEq ε] [DecidableEq α] : DecidableEq (Except ε α) := fun
  | .ok a, .ok b =>
    if h : a = b then isTrue (by rw [h]) else isFalse (fun hh => by cases hh; exact h rfl)
  | .ok _, .error _ => isFalse (fun h => by cases h)
  | .error _, .ok _ => isFalse (fun h => by cases h)
  | .error a, .error b =>
    if h : a = b then isTrue (by rw [h]) else isFalse (fun hh => by cases hh; exact h rfl)

/-- The per-row cell loop of `__extract_columns_values_and_dates_from_statement`
(edgar_functions.py lines 294-321): `vals` is the `values` list (initially all
NaN, modelled `none`), `i` the `enumerate` counter over the selected cells.
Text-class cells and cells whose cleaned text is empty are skipped; in the
special case the parsed value is divided by 1000 and then discarded (the
source never assigns it); otherwise `values[i]` is set to `value *
unit_multiplier` for `nump` cells and `-value * unit_multiplier` for the
rest, raising `IndexError` when `i` is out of range. -/
def processRow (sc : Bool) (m : ℚ) :
    List (Option ℚ) → Nat → List Cell → Except RowError (List (Option ℚ))
  | vals, _, [] => .ok vals
  | vals, i, c :: rest =>
    if c.kind = CellKind.text then processRow sc m vals (i + 1) rest
    else
      if cleanCellText c.text = [] then processRow sc m vals (i + 1) rest
      else
        match parsePyFloat (cleanCellText c.text) with
        | none => .error RowError.valueError
        | some x =>
          if sc then processRow sc m vals (i + 1) rest
          else if i < vals.length then
            processRow sc m
              (vals.set i (some (if c.kind = CellKind.nump then x * m else -x * m)))
              (i + 1) rest
          else .error RowError.indexError

/-- One data row processed against a date axis of length `dateCount`:
`values = [np.NaN] * len(date_time_index)` then the cell loop. -/
def processRowTop (sc : Bool) (m : ℚ) (dateCount : Nat) (cells : List Cell) :
    Except RowError (List (Option ℚ)) :=
  processRow sc m (List.replicate dateCount none) 0 cells

/-- A cell that triggers a `values[i]` assignment attempt in a non-special
table: not text-class, with nonempty cleaned text. -/
def valueBearing (c : Cell) : Bool :=
  !(c.kind == CellKind.text) && !(cleanCellText c.text).isEmpty

/-- The per-table unit-multiplier determination from the `th` header text
(edgar_functions.py lines 266-278): default 1, `"in Thousands"` keeps 1,
otherwise `"in Millions"` selects 1000. -/
def unitMultiplierOfHeader (header : List Char) : ℚ :=
  if containsSub "in Thousands".data header then 1
  else if containsSub "in Millions".data header then 1000
  else 1

/-- The special-case flag (edgar_functions.py lines 279-281). -/
def specialCaseOfHeader (header : List Char) : Bool :=
  containsSub "unless otherwise specified".data header

/-- Multiplier and special-case flag for a table, `none` meaning the table has
no `th` element (both keep their defaults). -/
def tableFlags : Option (List Char) → ℚ × Bool
  | none => (1, false)
  | some h => (unitMultiplierOfHeader h, specialCaseOfHeader h)

/-- Python `zip(*rows)` semantics with explicit fuel: collect the heads of all
rows while every row is nonempty (so the result is truncated at the shortest
row), stepping to the tails; `zip()` of no arguments is empty.  Fuel bounds
the number of produced tuples. -/
def pyZipTransposeF {α : Type} : Nat → List (List α) → List (List α)
  | 0, _ => []
  | fuel + 1, rows =>
    if rows.isEmpty then []
    else if rows.all (fun r => !r.isEmpty) then
      (rows.filterMap List.head?) :: pyZipTransposeF fuel (rows.map List.tail)
    else []

/-- `list(zip(*rows))`: the first row's length bounds the shortest row, so it
is sufficient fuel; `zip()` of an empty argument list is empty. -/
def pyZipTranspose {α : Type} (rows : List (List α)) : List (List α) :=
  match rows with
  | [] => []
  | r :: _ => pyZipTransposeF r.length rows

/-- The dataframe built by `__create_dataframe_of_statement_values_columns_dates`
(edgar_functions.py): row index = the parsed dates, columns = the extracted
labels, `data` row-major along the index. -/
structure DF where
  index : List SimpleDate
  cols : List (List Char)
  data : List (List (Option ℚ))
deriving DecidableEq

/-- `pd.DataFrame(transposed_values_set, columns=columns, index=index_dates)`:
pandas raises (modelled `none`) unless the data has exactly one row per index
entry and one entry per column in every row. -/
def createDataFrame (values_set : List (List (Option ℚ))) (columns : List (List Char))
    (dates : List SimpleDate) : Option DF :=
  let t := pyZipTranspose values_set
  if t.length = dates.length ∧ ∀ r ∈ t, r.length = columns.length then
    some ⟨dates, columns, t⟩
  else none

/-- `df.T` as a list of label-keyed rows: one row per original column, its
values running along the original index. -/
def transposeDF (df : DF) : List (List Char × List (Option ℚ)) :=
  df.cols.zip (pyZipTranspose df.data)

/-- `DataFrame.drop_duplicates()` over label-keyed rows: keep a row when its
value sequence differs from every previously kept one (pandas compares row
contents only, never the index labels, and treats NaN as equal to NaN —
matching `none = none` here). -/
def dedupGo : List (List (Option ℚ)) → List (List Char × List (Option ℚ)) →
    List (List Char × List (Option ℚ))
  | _, [] => []
  | seen, r :: rest =>
    if r.2 ∈ seen then dedupGo seen rest else r :: dedupGo (r.2 :: seen) rest

/-- `df.T.drop_duplicates()` (edgar_functions.py, `get_one_statement`). -/
def dropDuplicates (rows : List (List Char × List (Option ℚ))) :
    List (List Char × List (Option ℚ)) :=
  dedupGo [] rows

/-- The assembly steps of `get_one_statement` (edgar_functions.py lines
366-381): build the dataframe, return `None` when it is empty (either axis of
length zero), otherwise transpose and drop duplicate rows. -/
def assembleStatement (values_set : List (List (Option ℚ))) (columns : List (List Char))
    (dates : List SimpleDate) : Option (List (List Char × List (Option ℚ))) :=
  match createDataFrame values_set columns dates with
  | none => none
  | some df =>
    if df.index = [] ∨ df.cols = [] then none
    else some (dropDuplicates (transposeDF df))

/-! ### Helper lemmas about characters and `__standardize_number` -/

lemma charOfNat_toNat (m : Nat) (h : m ≤ 122) : (Char.ofNat m).toNat = m := by
  unfold Char.ofNat
  rw [dif_pos (Or.inl (by omega) : Nat.isValidChar m)]
  rfl

lemma isDigit_toNat_le (c : Char) (hd : c.isDigit = true) : c.toNat ≤ 57 := by
  simp only [Char.isDigit, Bool.and_eq_true, decide_eq_true_eq] at hd
  have h2 : c.val.toNat ≤ (57 : UInt32).toNat := hd.2
  exact h2

lemma lowerChar_digit (c : Char) (hd : c.isDigit = true) : lowerChar c = c := by
  unfold lowerChar
  rw [if_neg]
  intro hcon
  have := isDigit_toNat_le c hd
  omega

lemma lowerChar_dash (c : Char) (h : lowerChar c = '-') : c = '-' := by
  unfold lowerChar at h
  by_cases hg : 65 ≤ c.toNat ∧ c.toNat ≤ 90
  · rw [if_pos hg] at h
    have h2 : (Char.ofNat (c.toNat + 32)).toNat = ('-' : Char).toNat := by rw [h]
    rw [charOfNat_toNat _ (by omega)] at h2
    have h3 : ('-' : Char).toNat = 45 := by decide
    omega
  · rwa [if_neg hg] at h

lemma lowerChar_ne (c t a : Char) (h : lowerChar c = t) (ha : lowerChar a ≠ t) : c ≠ a := by
  intro hc; subst hc; exact ha h

lemma keepNumChar_false_of_lower (c t : Char) (h : lowerChar c = t)
    (h1 : lowerChar '.' ≠ t) (h2 : lowerChar '-' ≠ t) (h3 : t.isDigit = false) :
    keepNumChar c = false := by
  have hdot : c ≠ '.' := lowerChar_ne c t '.' h h1
  have hdash : c ≠ '-' := lowerChar_ne c t '-' h h2
  have hdig : c.isDigit = false := by
    by_contra hb
    simp only [Bool.not_eq_false] at hb
    have hcc := lowerChar_digit c hb
    rw [hcc] at h
    subst h
    rw [hb] at h3
    cases h3
  simp [keepNumChar, hdot, hdash, hdig]

lemma pyIntParse_none_of_dot (s : List Char) (h : '.' ∈ s) : pyIntParse s = none := by
  match s with
  | [] => cases h
  | c :: rest =>
    simp only [pyIntParse]
    rcases List.mem_cons.mp h with hc | hr
    · subst hc
      rw [if_neg (by decide)]
      rw [if_neg]
      simp only [List.all_cons]
      simp [Char.isDigit]
    · by_cases hcd : c = '-'
      · rw [if_pos hcd, if_neg]
        rintro ⟨-, hall⟩
        have := List.all_eq_true.mp hall '.' hr
        simp [Char.isDigit] at this
      · rw [if_neg hcd, if_neg]
        intro hall
        have := List.all_eq_true.mp hall '.' (List.mem_cons_of_mem _ hr)
        simp [Char.isDigit] at this

lemma standardize_none_of_no_numchar (s : List Char) (m : Int)
    (h : ∀ c ∈ s, keepNumChar c = false) : standardize_number s m = none := by
  unfold standardize_number
  split
  · rfl
  · by_cases hneg : (s.contains '(' && s.contains ')') = true
    · simp only [hneg, if_pos]
      have hf : (s.filter (fun c => decide (c ≠ '(') && decide (c ≠ ')'))).filter
          keepNumChar = [] := by
        rw [List.filter_eq_nil_iff]
        intro c hc
        simp [h c (List.mem_filter.mp hc).1]
      rw [hf]
      rfl
    · simp only [Bool.not_eq_true] at hneg
      simp only [hneg, Bool.false_eq_true, if_neg (by simp : ¬False)]
      have hf : s.filter keepNumChar = [] := by
        rw [List.filter_eq_nil_iff]
        intro c hc
        simp [h c hc]
      rw [hf]
      rfl

lemma standardize_no_currency (s : List Char) (m : Int) (h : s.contains '$' = false) :
    standardize_number s m = standardize_number s 1 := by
  unfold standardize_number
  split
  · rfl
  · have hmem : '$' ∉ s := by
      intro hm
      have hx : List.elem '$' s = false := h
      rw [List.elem_eq_true_of_mem hm] at hx
      cases hx
    by_cases hneg : (s.contains '(' && s.contains ')') = true
    · simp only [hneg, if_pos]
      have h1 : ('$' ∈ s.filter (fun c => decide (c ≠ '(') && decide (c ≠ ')'))) → False := by
        intro hm
        exact hmem (List.mem_filter.mp hm).1
      have h2 : (s.filter (fun c => decide (c ≠ '(') && decide (c ≠ ')'))).contains '$' =
          false := by
        by_contra hb
        simp only [Bool.not_eq_false] at hb
        exact h1 (List.elem_iff.mp hb)
      rw [h2]
      cases pyIntParse ((s.filter fun c =>
        decide (c ≠ '(') && decide (c ≠ ')')).filter keepNumChar) <;> simp
    · simp only [Bool.not_eq_true] at hneg
      simp only [hneg, Bool.false_eq_true, if_neg (by simp : ¬False)]
      rw [h]
      cases pyIntParse (s.filter keepNumChar) <;> simp

lemma standardize_currency (s : List Char) (m : Int) (h : s.contains '$' = true) :
    standardize_number s m = (standardize_number s 1).map (fun n => n * m) := by
  unfold standardize_number
  split
  · rfl
  · have hmem : '$' ∈ s := List.elem_iff.mp h
    by_cases hneg : (s.contains '(' && s.contains ')') = true
    · simp only [hneg, if_pos]
      have h2 : (s.filter (fun c => decide (c ≠ '(') && decide (c ≠ ')'))).contains '$' =
          true :=
        List.elem_eq_true_of_mem (List.mem_filter.mpr ⟨hmem, by decide⟩)
      rw [h2]
      cases pyIntParse ((s.filter fun c =>
        decide (c ≠ '(') && decide (c ≠ ')')).filter keepNumChar) <;> simp
    · simp only [Bool.not_eq_true] at hneg
      simp only [hneg, Bool.false_eq_true, if_neg (by simp : ¬False)]
      rw [h]
      cases pyIntParse (s.filter keepNumChar) <;> simp

/-! ### Claim C5: unit multiplier applies exactly to currency cells -/

/-- C5.  The unit multiplier is 1 for an `"in Thousands"` header, 1000 for an
`"in Millions"` header, and 1 with no hint (including a missing header), and
`__standardize_number` applies the multiplier to the parsed value exactly when
the cell text carries a `$` currency marker; concretely
`normalize_number("$1,234", 1000) = 1234000`,
`normalize_number("1,234", 1000) = 1234` and
`normalize_number("(1,234)", 1) = -1234`. -/
theorem c5_multiplier_iff_currency :
    (standardize_number "$1,234".data 1000 = some 1234000) ∧
    (standardize_number "1,234".data 1000 = some 1234) ∧
    (standardize_number "(1,234)".data 1 = some (-1234)) ∧
    (∀ (s : List Char) (m : Int), s.contains '$' = false →
      standardize_number s m = standardize_number s 1) ∧
    (∀ (s : List Char) (m : Int), s.contains '$' = true →
      standardize_number s m = (standardize_number s 1).map (fun n => n * m)) ∧
    (∀ h : List Char, containsSub "in Thousands".data h = true →
      unitMultiplierOfHeader h = 1) ∧
    (∀ h : List Char, containsSub "in Thousands".data h = false →
      containsSub "in Millions".data h = true → unitMultiplierOfHeader h = 1000) ∧
    (∀ h : List Char, containsSub "in Thousands".data h = false →
      containsSub "in Millions".data h = false → unitMultiplierOfHeader h = 1) ∧
    tableFlags none = (1, false) := by
  refine ⟨by decide, by decide, by decide, standardize_no_currency, standardize_currency,
    ?_, ?_, ?_, rfl⟩
  · intro h ht
    unfold unitMultiplierOfHeader
    rw [if_pos ht]
  · intro h ht hm
    unfold unitMultiplierOfHeader
    rw [if_neg (by simp [ht]), if_pos hm]
  · intro h ht hm
    unfold unitMultiplierOfHeader
    rw [if_neg (by simp [ht]), if_neg (by simp [hm])]

/-- C5 witness: the non-currency cell `"1,234"` ignores multiplier 1000, and
the currency cell `"$1,234"` scales by it. -/
theorem c5_multiplier_iff_currency_witness :
    ("1,234".data.contains '$' = false ∧
      standardize_number "1,234".data 1000 = standardize_number "1,234".data 1) ∧
    ("$1,234".data.contains '$' = true ∧
      standardize_number "$1,234".data 1000 =
        (standardize_number "$1,234".data 1).map (fun n => n * 1000)) :=
  ⟨⟨by decide, c5_multiplier_iff_currency.2.2.2.1 "1,234".data 1000 (by decide)⟩,
   ⟨by decide, c5_multiplier_iff_currency.2.2.2.2.1 "$1,234".data 1000 (by decide)⟩⟩

/-! ### Claim C6: decimal strings are rejected, not truncated -/

/-- C6 counterexample.  The spec says `"1234.5"` parses with truncation to
`1234`; in the source `int("1234.5")` raises `ValueError` and the function
returns null. -/
theorem c6_counterexample :
    standardize_number "1234.5".data 1 = none ∧
      standardize_number "1234.5".data 1 ≠ some 1234 := by decide

/-- C6 amended.  Any raw string containing a decimal point makes the integer
parse fail, so `__standardize_number` returns null on it (fractional digits
are never truncated). -/
theorem c6_decimal_yields_null (s : List Char) (m : Int) (h : '.' ∈ s) :
    standardize_number s m = none := by
  unfold standardize_number
  split
  · rfl
  · have hdot1 : ∀ l : List Char, '.' ∈ l →
        '.' ∈ l.filter (fun c => decide (c ≠ '(') && decide (c ≠ ')')) := by
      intro l hl
      refine List.mem_filter.mpr ⟨hl, by decide⟩
    have hdot2 : ∀ l : List Char, '.' ∈ l → '.' ∈ l.filter keepNumChar := by
      intro l hl
      refine List.mem_filter.mpr ⟨hl, by decide⟩
    by_cases hneg : (s.contains '(' && s.contains ')') = true
    · simp only [hneg, if_pos]
      rw [pyIntParse_none_of_dot _ (hdot2 _ (hdot1 _ h))]
    · simp only [Bool.not_eq_true] at hneg
      simp only [hneg, Bool.false_eq_true, if_neg (by simp : ¬False)]
      rw [pyIntParse_none_of_dot _ (hdot2 _ h)]

/-- C6 witness: evaluated at `"1234.5"`. -/
theorem c6_decimal_yields_null_witness :
    '.' ∈ "1234.5".data ∧ standardize_number "1234.5".data 1 = none :=
  ⟨by decide, c6_decimal_yields_null "1234.5".data 1 (by decide)⟩

/-! ### Claim C7: missing-value markers yield null -/

/-- C7.  Every case-insensitive variant of the missing markers `"N/A"`, `"--"`,
`""`, `"nan"` (hence also `"NAN"`) makes `__standardize_number` return null,
never zero: the variants of `"N/A"` and `"nan"` strip to the empty string and
fail the integer parse, `"--"` and the empty string hit the marker set. -/
theorem c7_missing_markers_null (s : List Char) (m : Int)
    (h : lowerL s ∈ ["n/a".data, "--".data, [], "nan".data]) :
    standardize_number s m = none := by
  simp only [List.mem_cons, List.mem_singleton, List.not_mem_nil] at h
  rcases h with h | h | h | h
  · rcases s with _ | ⟨a, _ | ⟨b, _ | ⟨c, _ | ⟨d, tl⟩⟩⟩⟩ <;> simp [lowerL] at h
    obtain ⟨ha, hb, hc⟩ := h
    refine standardize_none_of_no_numchar _ m ?_
    intro x hx
    rcases List.mem_cons.mp hx with hxa | hx2
    · subst hxa; exact keepNumChar_false_of_lower x 'n' ha (by decide) (by decide) (by decide)
    rcases List.mem_cons.mp hx2 with hxb | hx3
    · subst hxb; exact keepNumChar_false_of_lower x '/' hb (by decide) (by decide) (by decide)
    rcases List.mem_cons.mp hx3 with hxc | hx4
    · subst hxc; exact keepNumChar_false_of_lower x 'a' hc (by decide) (by decide) (by decide)
    · cases hx4
  · rcases s with _ | ⟨a, _ | ⟨b, _ | ⟨c, tl⟩⟩⟩ <;> simp [lowerL] at h
    obtain ⟨ha, hb⟩ := h
    rw [lowerChar_dash a ha, lowerChar_dash b hb]
    rfl
  · have hs : s = [] := List.map_eq_nil_iff.mp h
    subst hs
    rfl
  · rcases s with _ | ⟨a, _ | ⟨b, _ | ⟨c, _ | ⟨d, tl⟩⟩⟩⟩ <;> simp [lowerL] at h
    obtain ⟨ha, hb, hc⟩ := h
    refine standardize_none_of_no_numchar _ m ?_
    intro x hx
    rcases List.mem_cons.mp hx with hxa | hx2
    · subst hxa; exact keepNumChar_false_of_lower x 'n' ha (by decide) (by decide) (by decide)
    rcases List.mem_cons.mp hx2 with hxb | hx3
    · subst hxb; exact keepNumChar_false_of_lower x 'a' hb (by decide) (by decide) (by decide)
    rcases List.mem_cons.mp hx3 with hxc | hx4
    · subst hxc; exact keepNumChar_false_of_lower x 'n' hc (by decide) (by decide) (by decide)
    · cases hx4

/-- C7 witness: the mixed-case variant `"N/a"` yields null. -/
theorem c7_missing_markers_null_witness :
    lowerL "N/a".data ∈ ["n/a".data, "--".data, [], "nan".data] ∧
      standardize_number "N/a".data 7 = none :=
  ⟨by decide, c7_missing_markers_null "N/a".data 7 (by decide)⟩

/-! ### Claim C8: date normalization and (non-)idempotence of month replacement -/

/-- C8 counterexample.  The month-abbreviation replacement is not idempotent:
a second application re-expands the `"Jan"` inside `"January"`. -/
theorem c8_counterexample :
    standardize_date (standardize_date "Jan. 31, 2020".data) ≠
      standardize_date "Jan. 31, 2020".data := by decide

/-- C8 amended.  `normalize_date("Jan. 31, 2020")` is the canonical date
2020-01-31, but the abbreviation-replacement step is not idempotent: applied
once it gives `"January. 31, 2020"`, applied again `"Januaryuary. 31, 2020"`
(a full month name containing its own abbreviation is re-expanded). -/
theorem c8_date_normalization :
    normalize_date "Jan. 31, 2020".data = some ⟨2020, 1, 31⟩ ∧
    standardize_date "Jan. 31, 2020".data = "January. 31, 2020".data ∧
    standardize_date (standardize_date "Jan. 31, 2020".data) =
      "Januaryuary. 31, 2020".data := by decide

/-! ### Claim C4: first synonym match in declared table order -/

/-- C4 counterexample.  For the catalog mapping `"balance sheets" → R2.htm`
and `"balance sheet" → R3.htm` the resolved file is `R3.htm`, not the spec's
claimed `R2.htm`: the declared synonym order starts with `"balance sheet"`. -/
theorem c4_counterexample :
    locate [("balance sheets".data, "R2.htm".data), ("balance sheet".data, "R3.htm".data)]
        "balance_sheet".data = some "R3.htm".data ∧
      locate [("balance sheets".data, "R2.htm".data), ("balance sheet".data, "R3.htm".data)]
        "balance_sheet".data ≠ some "R2.htm".data := by decide

/-- C4 amended.  `locate` iterates the synonym table in declared order and
returns the file of the first synonym present (with a nonempty file name); the
declared order for `balance_sheet` begins with `"balance sheet"`, so whenever
that synonym is in the catalog its file wins outright. -/
theorem c4_first_synonym_wins (catalog : List (List Char × List Char)) (f : List Char)
    (h : lookupAssoc catalog "balance sheet".data = some f) (hne : f ≠ []) :
    locate catalog "balance_sheet".data = some f := by
  unfold locate
  rw [(by decide : lookupAssoc statementKeysMap (lowerL "balance_sheet".data) =
    some balanceSheetKeys)]
  simp only [Option.getD_some]
  unfold balanceSheetKeys
  rw [List.findSome?_cons]
  rw [(by decide : lowerL "balance sheet".data = "balance sheet".data), h]
  simp [hne]

/-- C4 witness: the counterexample catalog instantiates the amended claim,
yielding `R3.htm`. -/
theorem c4_first_synonym_wins_witness :
    (lookupAssoc [("balance sheets".data, "R2.htm".data),
        ("balance sheet".data, "R3.htm".data)] "balance sheet".data =
      some "R3.htm".data ∧ "R3.htm".data ≠ []) ∧
    locate [("balance sheets".data, "R2.htm".data), ("balance sheet".data, "R3.htm".data)]
      "balance_sheet".data = some "R3.htm".data :=
  ⟨⟨by decide, by decide⟩, c4_first_synonym_wins _ _ (by decide) (by decide)⟩

/-! ### Claim C1: the special-case division is computed but never stored -/

/-- C1 (code bug).  In a table whose header contains
`"unless otherwise specified"` the extractor computes `value /= 1000` and then
falls through without assigning `values[i]`, so the cell `"$2,000,000"` leaves
its slot `NaN` instead of the 2000 the spec (and the dead division) intend. -/
theorem c1_special_case_value_dropped :
    specialCaseOfHeader "$ in Millions, unless otherwise specified".data = true ∧
    unitMultiplierOfHeader "$ in Millions, unless otherwise specified".data = 1000 ∧
    processRowTop true 1000 1 [⟨CellKind.nump, "$2,000,000".data⟩] = .ok [none] ∧
    processRowTop true 1000 1 [⟨CellKind.nump, "$2,000,000".data⟩] ≠
      .ok [some 2000] := by
  refine ⟨by decide, by with_unfolding_all rfl, by with_unfolding_all rfl, ?_⟩
  intro hcon
  rw [(by with_unfolding_all rfl :
    processRowTop true 1000 1 [⟨CellKind.nump, "$2,000,000".data⟩] = .ok [none])] at hcon
  simp at hcon

/-! ### Helper lemmas about the extractor's row loop -/

lemma parsePyFloat_nonneg (s : List Char) (x : ℚ) (h : parsePyFloat s = some x) : 0 ≤ x := by
  unfold parsePyFloat at h
  split at h
  · split at h
    · split at h
      · cases h
        exact Nat.cast_nonneg _
      · cases h
    · split at h
      · split at h
        · cases h
          have h1 : (0 : ℚ) ≤ (digitsToNat (s.takeWhile (fun c => c ≠ '.')) : ℚ) :=
            Nat.cast_nonneg _
          have h2 : (0 : ℚ) ≤ (digitsToNat ((s.dropWhile (fun c => c ≠ '.')).tail) : ℚ) /
              (10 ^ ((s.dropWhile (fun c => c ≠ '.')).tail).length) :=
            div_nonneg (Nat.cast_nonneg _) (by positivity)
          exact add_nonneg h1 h2
        · cases h
      · cases h
  · cases h

lemma valueBearing_iff (c : Cell) :
    valueBearing c = true ↔ (c.kind ≠ CellKind.text ∧ cleanCellText c.text ≠ []) := by
  simp [valueBearing, List.isEmpty_iff]

lemma processRow_ok_length (sc : Bool) (m : ℚ) :
    ∀ (cells : List Cell) (vals : List (Option ℚ)) (i : Nat) (out : List (Option ℚ)),
      processRow sc m vals i cells = .ok out → out.length = vals.length := by
  intro cells
  induction cells with
  | nil =>
    intro vals i out h
    simp only [processRow] at h
    cases h
    rfl
  | cons c rest ih =>
    intro vals i out h
    simp only [processRow] at h
    by_cases hk : c.kind = CellKind.text
    · rw [if_pos hk] at h
      exact ih _ _ _ h
    · rw [if_neg hk] at h
      by_cases hcl : cleanCellText c.text = []
      · rw [if_pos hcl] at h
        exact ih _ _ _ h
      · rw [if_neg hcl] at h
        rcases hp : parsePyFloat (cleanCellText c.text) with _ | x
        · rw [hp] at h
          cases h
        · rw [hp] at h
          dsimp only [] at h
          by_cases hsc : sc = true
          · rw [if_pos hsc] at h
            exact ih _ _ _ h
          · rw [if_neg hsc] at h
            by_cases hi : i < vals.length
            · rw [if_pos hi] at h
              have := ih _ _ _ h
              rwa [List.length_set] at this
            · rw [if_neg hi] at h
              cases h

lemma processRow_ok_writes (sc : Bool) (m : ℚ) :
    ∀ (cells : List Cell) (vals : List (Option ℚ)) (i : Nat) (out : List (Option ℚ)),
      processRow sc m vals i cells = .ok out →
      ∀ j : Nat, out[j]? ≠ vals[j]? →
        ∃ k c, cells[k]? = some c ∧ j = i + k ∧ c.kind ≠ CellKind.text ∧
          cleanCellText c.text ≠ [] := by
  intro cells
  induction cells with
  | nil =>
    intro vals i out h j hj
    simp only [processRow] at h
    cases h
    exact absurd rfl hj
  | cons c rest ih =>
    intro vals i out h j hj
    simp only [processRow] at h
    by_cases hk : c.kind = CellKind.text
    · rw [if_pos hk] at h
      obtain ⟨k, c', hkc, hji, hkind, hclean⟩ := ih _ _ _ h j hj
      exact ⟨k + 1, c', by simpa using hkc, by omega, hkind, hclean⟩
    · rw [if_neg hk] at h
      by_cases hcl : cleanCellText c.text = []
      · rw [if_pos hcl] at h
        obtain ⟨k, c', hkc, hji, hkind, hclean⟩ := ih _ _ _ h j hj
        exact ⟨k + 1, c', by simpa using hkc, by omega, hkind, hclean⟩
      · rw [if_neg hcl] at h
        rcases hp : parsePyFloat (cleanCellText c.text) with _ | x
        · rw [hp] at h
          cases h
        · rw [hp] at h
          dsimp only [] at h
          by_cases hsc : sc = true
          · rw [if_pos hsc] at h
            obtain ⟨k, c', hkc, hji, hkind, hclean⟩ := ih _ _ _ h j hj
            exact ⟨k + 1, c', by simpa using hkc, by omega, hkind, hclean⟩
          · rw [if_neg hsc] at h
            by_cases hi : i < vals.length
            · rw [if_pos hi] at h
              by_cases hj2 : out[j]? =
                  (vals.set i (some (if c.kind = CellKind.nump then x * m else -x * m)))[j]?
              · have hji : j = i := by
                  by_contra hne
                  rw [List.getElem?_set_ne (fun he => hne he.symm)] at hj2
                  exact hj hj2
                exact ⟨0, c, by simp, by omega, hk, hcl⟩
              · obtain ⟨k, c', hkc, hji, hkind, hclean⟩ := ih _ _ _ h j hj2
                exact ⟨k + 1, c', by simpa using hkc, by omega, hkind, hclean⟩
            · rw [if_neg hi] at h
              cases h

lemma processRow_overflow (m : ℚ) :
    ∀ (cells : List Cell) (vals : List (Option ℚ)) (i : Nat),
      (∀ c ∈ cells, valueBearing c = true → (parsePyFloat (cleanCellText c.text)).isSome) →
      0 < (cells.filter valueBearing).length →
      vals.length < i + (cells.filter valueBearing).length →
      processRow false m vals i cells = .error RowError.indexError := by
  intro cells
  induction cells with
  | nil =>
    intro vals i hp hpos hlen
    simp at hpos
  | cons c rest ih =>
    intro vals i hp hpos hlen
    simp only [processRow]
    by_cases hvb : valueBearing c = true
    · obtain ⟨hk, hcl⟩ := (valueBearing_iff c).mp hvb
      rw [if_neg hk, if_neg hcl]
      rcases hps : parsePyFloat (cleanCellText c.text) with _ | x
      · have := hp c (List.mem_cons_self c rest) hvb
        rw [hps] at this
        cases this
      · dsimp only []
        rw [if_neg (show ¬(false = true) by decide)]
        have hcount : ((c :: rest).filter valueBearing).length =
            (rest.filter valueBearing).length + 1 := by
          simp [List.filter_cons, hvb]
        by_cases hi : i < vals.length
        · rw [if_pos hi]
          have hrest : 0 < (rest.filter valueBearing).length := by omega
          refine ih _ (i + 1) (fun c' hc' => hp c' (List.mem_cons_of_mem _ hc')) hrest ?_
          rw [List.length_set]
          omega
        · rw [if_neg hi]
    · have hvb' : valueBearing c = false := by simpa using hvb
      have hcount : ((c :: rest).filter valueBearing).length =
          (rest.filter valueBearing).length := by
        simp [List.filter_cons, hvb']
      have hrec : processRow false m vals (i + 1) rest = .error RowError.indexError := by
        refine ih _ _ (fun c' hc' => hp c' (List.mem_cons_of_mem _ hc')) ?_ ?_ <;> omega
      by_cases hk : c.kind = CellKind.text
      · rw [if_pos hk]
        exact hrec
      · rw [if_neg hk]
        have hcl : cleanCellText c.text = [] := by
          by_contra hc
          have hvbt : valueBearing c = true := (valueBearing_iff c).mpr ⟨hk, hc⟩
          rw [hvbt] at hvb'
          cases hvb'
        rw [if_pos hcl]
        exact hrec

lemma processRow_safe (sc : Bool) (m : ℚ) :
    ∀ (cells : List Cell) (vals : List (Option ℚ)) (i : Nat),
      (∀ c ∈ cells, valueBearing c = true → (parsePyFloat (cleanCellText c.text)).isSome) →
      (∀ (k : Nat) (c : Cell), cells[k]? = some c → valueBearing c = true →
        i + k < vals.length) →
      ∃ out, processRow sc m vals i cells = .ok out := by
  intro cells
  induction cells with
  | nil =>
    intro vals i _ _
    exact ⟨vals, rfl⟩
  | cons c rest ih =>
    intro vals i hp hpos
    simp only [processRow]
    have hshift : ∀ (k : Nat) (c' : Cell), rest[k]? = some c' → valueBearing c' = true →
        (i + 1) + k < vals.length := by
      intro k c' hkc hvb
      have := hpos (k + 1) c' (by simpa using hkc) hvb
      omega
    by_cases hk : c.kind = CellKind.text
    · rw [if_pos hk]
      exact ih _ _ (fun c' hc' => hp c' (List.mem_cons_of_mem _ hc')) hshift
    · rw [if_neg hk]
      by_cases hcl : cleanCellText c.text = []
      · rw [if_pos hcl]
        exact ih _ _ (fun c' hc' => hp c' (List.mem_cons_of_mem _ hc')) hshift
      · rw [if_neg hcl]
        have hvb : valueBearing c = true := (valueBearing_iff c).mpr ⟨hk, hcl⟩
        rcases hps : parsePyFloat (cleanCellText c.text) with _ | x
        · have := hp c (List.mem_cons_self c rest) hvb
          rw [hps] at this
          cases this
        · dsimp only []
          by_cases hsc : sc = true
          · rw [if_pos hsc]
            exact ih _ _ (fun c' hc' => hp c' (List.mem_cons_of_mem _ hc')) hshift
          · rw [if_neg hsc]
            have hi : i < vals.length := by
              have := hpos 0 c (by simp) hvb
              omega
            rw [if_pos hi]
            refine ih _ _ (fun c' hc' => hp c' (List.mem_cons_of_mem _ hc')) ?_
            intro k c' hkc hvb'
            rw [List.length_set]
            exact hshift k c' hkc hvb'

/-! ### Claim C2: the sign comes from the cell class, not parenthesization -/

/-- C2 counterexample.  A parenthesized cell `"(5)"` tagged with the positive
role class `nump` is stored as `+5`, not as a negative value: parenthesization
does not win the sign in the extractor. -/
theorem c2_counterexample :
    processRowTop false 1 1 [⟨CellKind.nump, "(5)".data⟩] = .ok [some 5] ∧
      ¬((5 : ℚ) < 0) := by
  constructor
  · with_unfolding_all rfl
  · norm_num

/-- C2 amended.  The extractor strips `(` and `)` from the cell text before
parsing — a cell behaves exactly like its parenthesis-free form — and the sign
of a stored value is determined solely by the role class: `nump` cells store
`v * m` and every other number cell stores `-v * m`, with `v ≥ 0` the parsed
magnitude.  (Parenthesization never influences the extractor's sign.) -/
theorem c2_sign_from_role :
    (∀ (k : CellKind) (txt : List Char) (m q : ℚ),
      processRowTop false m 1 [⟨k, txt⟩] = .ok [some q] →
        ∃ v : ℚ, 0 ≤ v ∧ parsePyFloat (cleanCellText txt) = some v ∧
          q = (if k = CellKind.nump then v * m else -v * m)) ∧
    (∀ (sc : Bool) (m : ℚ) (L : Nat) (k : CellKind) (txt : List Char),
      processRowTop sc m L [⟨k, txt⟩] =
        processRowTop sc m L [⟨k, txt.filter (fun c => c ≠ '(' && c ≠ ')')⟩]) := by
  constructor
  · intro k txt m q h
    simp only [processRowTop, processRow] at h
    by_cases hk : k = CellKind.text
    · rw [if_pos hk] at h
      simp at h
    · rw [if_neg hk] at h
      by_cases hcl : cleanCellText txt = []
      · rw [if_pos hcl] at h
        simp at h
      · rw [if_neg hcl] at h
        rcases hps : parsePyFloat (cleanCellText txt) with _ | x
        · rw [hps] at h
          cases h
        · rw [hps] at h
          dsimp only [] at h
          rw [if_neg (show ¬(false = true) by decide)] at h
          rw [if_pos (by simp : (0 : Nat) < (List.replicate 1 (none : Option ℚ)).length)] at h
          simp only [List.replicate, List.set] at h
          cases h
          exact ⟨x, parsePyFloat_nonneg _ x hps, rfl, rfl⟩
  · intro sc m L k txt
    have hclean : cleanCellText (txt.filter (fun c => c ≠ '(' && c ≠ ')')) =
        cleanCellText txt := by
      unfold cleanCellText removeCellChars
      rw [List.filter_filter]
      congr 2
      apply List.filter_congr
      intro a _
      by_cases h1 : a = '('
      · subst h1
        decide
      · by_cases h2 : a = ')'
        · subst h2
          decide
        · simp [h1, h2]
    simp only [processRowTop, processRow, hclean]

/-- C2 witness: the parenthesized `num`-class cell `"(7)"` with multiplier 2
stores `-14`, the sign coming from the class. -/
theorem c2_sign_from_role_witness :
    processRowTop false 2 1 [⟨CellKind.num, "(7)".data⟩] = .ok [some (-14)] ∧
    ∃ v : ℚ, 0 ≤ v ∧ parsePyFloat (cleanCellText "(7)".data) = some v ∧
      (-14 : ℚ) = (if CellKind.num = CellKind.nump then v * 2 else -v * 2) :=
  have h : processRowTop false 2 1 [⟨CellKind.num, "(7)".data⟩] = .ok [some (-14)] := by
    with_unfolding_all rfl
  ⟨h, c2_sign_from_role.1 CellKind.num "(7)".data 2 (-14) h⟩

/-! ### Claim C9: every extracted row has exactly one slot per date -/

/-- C9.  A successfully extracted row's value list has length exactly the
number of date columns: it starts as all-null of that length and a slot is
overwritten only at the position of a non-text cell with nonempty cleaned
text; in particular two populated cells against four date columns produce a
4-slot list with two nulls, never a shifted or shortened list. -/
theorem c9_row_length_padding :
    (∀ (sc : Bool) (m : ℚ) (L : Nat) (cells : List Cell) (out : List (Option ℚ)),
      processRowTop sc m L cells = .ok out →
        out.length = L ∧
        ∀ (j : Nat) (q : ℚ), out[j]? = some (some q) →
          ∃ c : Cell, cells[j]? = some c ∧ c.kind ≠ CellKind.text ∧
            cleanCellText c.text ≠ []) ∧
    processRowTop false 1 4 [⟨CellKind.num, "1".data⟩, ⟨CellKind.num, "2".data⟩] =
      .ok [some (-1), some (-2), none, none] := by
  constructor
  · intro sc m L cells out h
    have hlen := processRow_ok_length sc m cells _ 0 out h
    rw [List.length_replicate] at hlen
    refine ⟨hlen, ?_⟩
    intro j q hj
    have hne : out[j]? ≠ (List.replicate L (none : Option ℚ))[j]? := by
      rw [hj]
      by_cases hjL : j < L
      · rw [List.getElem?_replicate_of_lt hjL]
        simp
      · rw [List.getElem?_eq_none (by rw [List.length_replicate]; omega)]
        simp
    obtain ⟨kk, c, hkc, hjk, hkind, hclean⟩ :=
      processRow_ok_writes sc m cells _ 0 out h j hne
    refine ⟨c, ?_, hkind, hclean⟩
    rw [show j = kk by omega]
    exact hkc
  · with_unfolding_all rfl

/-- C9 witness: the two-cells-four-dates scenario instantiates the general
statement. -/
theorem c9_row_length_padding_witness :
    processRowTop false 1 4 [⟨CellKind.num, "1".data⟩, ⟨CellKind.num, "2".data⟩] =
      .ok [some (-1), some (-2), none, none] ∧
    (([some (-1), some (-2), none, none] : List (Option ℚ)).length = 4 ∧
      ∀ (j : Nat) (q : ℚ),
        ([some (-1), some (-2), none, none] : List (Option ℚ))[j]? = some (some q) →
        ∃ c : Cell,
          ([⟨CellKind.num, "1".data⟩, ⟨CellKind.num, "2".data⟩] : List Cell)[j]? = some c ∧
            c.kind ≠ CellKind.text ∧ cleanCellText c.text ≠ []) :=
  have h : processRowTop false 1 4 [⟨CellKind.num, "1".data⟩, ⟨CellKind.num, "2".data⟩] =
      .ok [some (-1), some (-2), none, none] := by with_unfolding_all rfl
  ⟨h, c9_row_length_padding.1 false 1 4 _ _ h⟩

/-! ### Claim C10: out-of-bounds behaviour of the cell loop -/

/-- C10 counterexample.  The loop indexes by position among all selected cells,
text cells included: with one date column, a row `[td.text, td.num "5"]` has
only one value-bearing cell (within the claimed precondition) yet still raises
`IndexError`, so the claimed precondition does not make the error branch
unreachable. -/
theorem c10_counterexample :
    (([⟨CellKind.text, "abc".data⟩, ⟨CellKind.num, "5".data⟩] : List Cell).filter
        valueBearing).length ≤ 1 ∧
    processRowTop false 1 1 [⟨CellKind.text, "abc".data⟩, ⟨CellKind.num, "5".data⟩] =
      .error RowError.indexError := by
  constructor
  · decide
  · with_unfolding_all rfl

/-- C10 amended.  In a non-special-case table, a row with more value-bearing
cells (all of which parse) than date columns always raises `IndexError`; and
the error branches are unreachable exactly under the stronger precondition
that every value-bearing cell parses and sits at a position (among all
selected cells, text cells included) below the date-column count — then every
write is in bounds and the row is returned. -/
theorem c10_bounds :
    (∀ (m : ℚ) (L : Nat) (cells : List Cell),
      (∀ c ∈ cells, valueBearing c = true → (parsePyFloat (cleanCellText c.text)).isSome) →
      L < (cells.filter valueBearing).length →
      processRowTop false m L cells = .error RowError.indexError) ∧
    (∀ (sc : Bool) (m : ℚ) (L : Nat) (cells : List Cell),
      (∀ c ∈ cells, valueBearing c = true → (parsePyFloat (cleanCellText c.text)).isSome) →
      (∀ (k : Nat) (c : Cell), cells[k]? = some c → valueBearing c = true → k < L) →
      ∃ out, processRowTop sc m L cells = .ok out) := by
  constructor
  · intro m L cells hp hlen
    refine processRow_overflow m cells _ 0 hp (by omega) ?_
    rw [List.length_replicate]
    omega
  · intro sc m L cells hp hpos
    refine processRow_safe sc m cells _ 0 hp ?_
    intro k c hkc hvb
    rw [List.length_replicate]
    simpa using hpos k c hkc hvb

/-- C10 witness: two parseable `num` cells against one date column overflow
into `IndexError`. -/
theorem c10_bounds_witness :
    ((∀ c ∈ ([⟨CellKind.num, "7".data⟩, ⟨CellKind.num, "8".data⟩] : List Cell),
        valueBearing c = true → (parsePyFloat (cleanCellText c.text)).isSome) ∧
      1 < (([⟨CellKind.num, "7".data⟩, ⟨CellKind.num, "8".data⟩] : List Cell).filter
        valueBearing).length) ∧
    processRowTop false 1 1 [⟨CellKind.num, "7".data⟩, ⟨CellKind.num, "8".data⟩] =
      .error RowError.indexError :=
  ⟨⟨by decide, by decide⟩, c10_bounds.1 1 1 _ (by decide) (by decide)⟩

/-! ### Helper lemmas for the grid assembler -/

lemma range_map_getD_self {α : Type} (l : List α) (d : α) :
    (List.range l.length).map (fun i => l.getD i d) = l := by
  apply List.ext_getElem
  · simp
  · intro i h1 h2
    simp only [List.getElem_map, List.getElem_range]
    rw [List.getD_eq_getElem l d h2]

lemma tail_getD {α : Type} (l : List α) (hl : l ≠ []) (i : Nat) (d : α) :
    l.tail.getD i d = l.getD (i + 1) d := by
  cases l with
  | nil => exact absurd rfl hl
  | cons a t => rfl

lemma getD_map_lt {β α : Type} (l : List β) (f : β → α) (j : Nat) (hj : j < l.length)
    (d : α) (d2 : β) : (l.map f).getD j d = f (l.getD j d2) := by
  rw [List.getD_eq_getElem _ d (by simpa using hj), List.getElem_map,
    List.getD_eq_getElem l d2 hj]

lemma filterMap_head_eq_map {α : Type} (rows : List (List α)) (d : α)
    (h : ∀ r ∈ rows, r ≠ []) :
    rows.filterMap List.head? = rows.map (fun r => r.getD 0 d) := by
  induction rows with
  | nil => rfl
  | cons a t ih =>
    have ha : a ≠ [] := h a (List.mem_cons_self a t)
    cases a with
    | nil => exact absurd rfl ha
    | cons x xs =>
      simp only [List.filterMap_cons, List.head?, List.map_cons]
      rw [ih (fun r hr => h r (List.mem_cons_of_mem _ hr))]
      rfl

lemma transposeF_spec {α : Type} (d : α) :
    ∀ (M : Nat) (rows : List (List α)), rows ≠ [] → (∀ r ∈ rows, r.length = M) →
      pyZipTransposeF M rows = (List.range M).map (fun i => rows.map (fun r => r.getD i d)) := by
  intro M
  induction M with
  | zero =>
    intro rows hne hlen
    rfl
  | succ M ih =>
    intro rows hne hlen
    have hrne : ∀ r ∈ rows, r ≠ [] := by
      intro x hx hcon
      have := hlen x hx
      rw [hcon] at this
      simp at this
    have hall : rows.all (fun x => !x.isEmpty) = true := by
      rw [List.all_eq_true]
      intro x hx
      simpa [List.isEmpty_iff] using hrne x hx
    rw [pyZipTransposeF]
    rw [if_neg (by simpa [List.isEmpty_iff] using hne), if_pos hall]
    have hne2 : rows.map List.tail ≠ [] := by simpa using hne
    have hlen2 : ∀ x ∈ rows.map List.tail, x.length = M := by
      intro x hx
      obtain ⟨y, hy, rfl⟩ := List.mem_map.mp hx
      have := hlen y hy
      simp [List.length_tail, this]
    rw [ih (rows.map List.tail) hne2 hlen2]
    rw [List.range_succ_eq_map]
    rw [List.map_cons]
    congr 1
    · exact filterMap_head_eq_map rows d hrne
    · rw [List.map_map]
      apply List.map_eq_map_iff.mpr
      intro i _
      simp only [Function.comp]
      rw [List.map_map]
      apply List.map_eq_map_iff.mpr
      intro x hx
      simp only [Function.comp]
      exact tail_getD x (hrne x hx) i d

lemma pyZipTranspose_spec {α : Type} (d : α) (rows : List (List α)) (M : Nat)
    (hne : rows ≠ []) (hlen : ∀ r ∈ rows, r.length = M) :
    pyZipTranspose rows = (List.range M).map (fun i => rows.map (fun r => r.getD i d)) := by
  cases rows with
  | nil => exact absurd rfl hne
  | cons r t =>
    show pyZipTransposeF r.length (r :: t) = _
    rw [hlen r (List.mem_cons_self r t)]
    exact transposeF_spec d M (r :: t) (by simp) hlen

lemma pyZipTranspose_involutive (vs : List (List (Option ℚ))) (M : Nat)
    (hne : vs ≠ []) (hM : 0 < M) (hlen : ∀ r ∈ vs, r.length = M) :
    pyZipTranspose (pyZipTranspose vs) = vs := by
  rw [pyZipTranspose_spec none vs M hne hlen]
  have htne : (List.range M).map (fun i => vs.map (fun r => r.getD i none)) ≠ [] := by
    simp [List.range_eq_nil]
    omega
  have htlen : ∀ r ∈ (List.range M).map (fun i => vs.map (fun r => r.getD i none)),
      r.length = vs.length := by
    intro r hr
    obtain ⟨i, _, rfl⟩ := List.mem_map.mp hr
    simp
  have hrw := pyZipTranspose_spec (none : Option ℚ)
    ((List.range M).map (fun i => vs.map (fun r => r.getD i none))) vs.length htne htlen
  rw [hrw]
  have hstep : ∀ j ∈ List.range vs.length,
      ((List.range M).map (fun i => vs.map (fun r => r.getD i none))).map
        (fun r => r.getD j none) = vs.getD j [] := by
    intro j hj
    have hjlt : j < vs.length := List.mem_range.mp hj
    rw [List.map_map]
    have hrow : ∀ i ∈ List.range M,
        ((fun r => r.getD j (none : Option ℚ)) ∘
          fun i => vs.map (fun r => r.getD i none)) i = (vs.getD j []).getD i none := by
      intro i _
      simp only [Function.comp]
      exact getD_map_lt vs _ j hjlt _ []
    rw [List.map_eq_map_iff.mpr hrow]
    have hjlen : (vs.getD j []).length = M := by
      refine hlen _ ?_
      rw [List.getD_eq_getElem vs [] hjlt]
      exact List.getElem_mem hjlt
    rw [← hjlen]
    exact range_map_getD_self _ none
  have hstep2 : ((List.range vs.length).map (fun j =>
      ((List.range M).map (fun i => vs.map (fun r => r.getD i none))).map
        (fun r => r.getD j none))) = (List.range vs.length).map (fun j => vs.getD j []) :=
    List.map_eq_map_iff.mpr hstep
  rw [hstep2]
  exact range_map_getD_self vs []

lemma dedupGo_sublist :
    ∀ (l : List (List Char × List (Option ℚ))) (seen : List (List (Option ℚ))),
      (dedupGo seen l).Sublist l := by
  intro l
  induction l with
  | nil =>
    intro seen
    exact List.Sublist.refl []
  | cons a t ih =>
    intro seen
    simp only [dedupGo]
    by_cases hmem : a.2 ∈ seen
    · rw [if_pos hmem]
      exact (ih seen).cons a
    · rw [if_neg hmem]
      exact (ih (a.2 :: seen)).cons₂ a

lemma dedupGo_mem_iff :
    ∀ (l : List (List Char × List (Option ℚ))) (seen : List (List (Option ℚ)))
      (r : List Char × List (Option ℚ)),
      r ∈ dedupGo seen l ↔ r.2 ∉ seen ∧ ∃ i : Nat, l[i]? = some r ∧
        ∀ j < i, ∀ r', l[j]? = some r' → r'.2 ≠ r.2 := by
  intro l
  induction l with
  | nil =>
    intro seen r
    simp [dedupGo]
  | cons a t ih =>
    intro seen r
    simp only [dedupGo]
    by_cases hmem : a.2 ∈ seen
    · rw [if_pos hmem, ih]
      constructor
      · rintro ⟨hns, i, hi, hearly⟩
        refine ⟨hns, i + 1, by simpa using hi, ?_⟩
        intro j hj r' hjr'
        cases j with
        | zero =>
          simp only [List.getElem?_cons_zero, Option.some.injEq] at hjr'
          subst hjr'
          intro heq
          rw [heq] at hmem
          exact hns hmem
        | succ j' =>
          simp only [List.getElem?_cons_succ] at hjr'
          exact hearly j' (by omega) r' hjr'
      · rintro ⟨hns, i, hi, hearly⟩
        cases i with
        | zero =>
          simp only [List.getElem?_cons_zero, Option.some.injEq] at hi
          subst hi
          exact absurd hmem hns
        | succ i' =>
          simp only [List.getElem?_cons_succ] at hi
          refine ⟨hns, i', hi, ?_⟩
          intro j hj r' hjr'
          exact hearly (j + 1) (by omega) r' (by simpa using hjr')
    · rw [if_neg hmem, List.mem_cons, ih]
      constructor
      · rintro (rfl | ⟨hns, i, hi, hearly⟩)
        · exact ⟨hmem, 0, by simp, by omega⟩
        · rw [List.mem_cons] at hns
          push_neg at hns
          refine ⟨hns.2, i + 1, by simpa using hi, ?_⟩
          intro j hj r' hjr'
          cases j with
          | zero =>
            simp only [List.getElem?_cons_zero, Option.some.injEq] at hjr'
            subst hjr'
            exact fun heq => hns.1 heq.symm
          | succ j' =>
            simp only [List.getElem?_cons_succ] at hjr'
            exact hearly j' (by omega) r' hjr'
      · rintro ⟨hns, i, hi, hearly⟩
        cases i with
        | zero =>
          simp only [List.getElem?_cons_zero, Option.some.injEq] at hi
          exact Or.inl hi.symm
        | succ i' =>
          simp only [List.getElem?_cons_succ] at hi
          refine Or.inr ⟨?_, i', hi, ?_⟩
          · rw [List.mem_cons]
            push_neg
            refine ⟨?_, hns⟩
            have := hearly 0 (by omega) a (by simp)
            exact fun heq => this heq.symm
          · intro j hj r' hjr'
            exact hearly (j + 1) (by omega) r' (by simpa using hjr')

lemma dedupGo_covers :
    ∀ (l : List (List Char × List (Option ℚ))) (seen : List (List (Option ℚ)))
      (v : List (Option ℚ)),
      (∃ r ∈ l, r.2 = v) → v ∉ seen → ∃ r' ∈ dedupGo seen l, r'.2 = v := by
  intro l
  induction l with
  | nil =>
    intro seen v hex _
    obtain ⟨r, hr, _⟩ := hex
    cases hr
  | cons a t ih =>
    intro seen v hex hns
    obtain ⟨r, hr, hv⟩ := hex
    simp only [dedupGo]
    by_cases hmem : a.2 ∈ seen
    · rw [if_pos hmem]
      rcases List.mem_cons.mp hr with rfl | hrt
      · exact absurd (hv ▸ hmem) hns
      · exact ih seen v ⟨r, hrt, hv⟩ hns
    · rw [if_neg hmem]
      by_cases hva : v = a.2
      · exact ⟨a, List.mem_cons_self a _, hva.symm⟩
      · rcases List.mem_cons.mp hr with rfl | hrt
        · exact absurd hv.symm hva
        · obtain ⟨r', hr', hv'⟩ := ih (a.2 :: seen) v ⟨r, hrt, hv⟩
            (by rw [List.mem_cons]; push_neg; exact ⟨hva, hns⟩)
          exact ⟨r', List.mem_cons_of_mem _ hr', hv'⟩

lemma dedupGo_nodup :
    ∀ (l : List (List Char × List (Option ℚ))) (seen : List (List (Option ℚ))),
      ((dedupGo seen l).map Prod.snd).Nodup := by
  intro l
  induction l with
  | nil =>
    intro seen
    simp [dedupGo]
  | cons a t ih =>
    intro seen
    simp only [dedupGo]
    by_cases hmem : a.2 ∈ seen
    · rw [if_pos hmem]
      exact ih seen
    · rw [if_neg hmem]
      rw [List.map_cons, List.nodup_cons]
      refine ⟨?_, ih (a.2 :: seen)⟩
      intro hcon
      obtain ⟨r, hr, hrv⟩ := List.mem_map.mp hcon
      have := ((dedupGo_mem_iff t (a.2 :: seen) r).mp hr).1
      rw [List.mem_cons] at this
      push_neg at this
      exact this.1 hrv

/-! ### Claim C3: the assembled grid and its de-duplication rule -/

/-- C3 counterexample.  Two rows with distinct labels `"a"`, `"b"` but equal
value sequences: `drop_duplicates` compares row contents, not labels, so row
`"b"` is silently dropped although its label duplicates nothing. -/
theorem c3_counterexample :
    assembleStatement [[some 1], [some 1]] ["a".data, "b".data] [⟨2020, 1, 31⟩] =
      some [("a".data, [some 1])] ∧
    "a".data ≠ "b".data ∧
    ∀ g, assembleStatement [[some 1], [some 1]] ["a".data, "b".data] [⟨2020, 1, 31⟩] =
        some g → ("b".data, ([some 1] : List (Option ℚ))) ∉ g := by
  have h1 : assembleStatement [[some 1], [some 1]] ["a".data, "b".data] [⟨2020, 1, 31⟩] =
      some [("a".data, [some 1])] := by with_unfolding_all rfl
  refine ⟨h1, by decide, ?_⟩
  intro g hg
  rw [h1] at hg
  obtain rfl : ([("a".data, [some 1])] : List (List Char × List (Option ℚ))) = g :=
    Option.some.inj hg
  intro hmem
  rw [List.mem_singleton] at hmem
  have := congrArg Prod.fst hmem
  simp only at this
  exact absurd this (by decide)

/-- C3 amended.  For a well-formed input of `N = vs.length` rows over
`M = dates.length` date columns, assembly succeeds and yields a grid with at
most `N` rows and exactly `M` columns per row; the output rows form a sublist
of the input rows; de-duplication is by entire value sequence — not by
label — keeping the first occurrence: each input row's value sequence survives
in some output row, output value sequences are pairwise distinct, and a row is
kept exactly when it occurs at a position no earlier instance of whose value
sequence exists. -/
theorem c3_assemble_dedup_by_values
    (vs : List (List (Option ℚ))) (cols : List (List Char)) (dates : List SimpleDate)
    (hN : cols.length = vs.length) (hvne : vs ≠ []) (hdne : dates ≠ [])
    (hM : ∀ r ∈ vs, r.length = dates.length) :
    ∃ g, assembleStatement vs cols dates = some g ∧
      g.length ≤ vs.length ∧
      (∀ r ∈ g, r.2.length = dates.length) ∧
      g.Sublist (cols.zip vs) ∧
      (g.map Prod.snd).Nodup ∧
      (∀ r ∈ cols.zip vs, ∃ r' ∈ g, r'.2 = r.2) ∧
      (∀ r, r ∈ g ↔ ∃ i : Nat, (cols.zip vs)[i]? = some r ∧
        ∀ j < i, ∀ r', (cols.zip vs)[j]? = some r' → r'.2 ≠ r.2) := by
  have hT := pyZipTranspose_spec (none : Option ℚ) vs dates.length hvne hM
  have htlen : (pyZipTranspose vs).length = dates.length := by
    rw [hT]
    simp
  have htrow : ∀ r ∈ pyZipTranspose vs, r.length = cols.length := by
    rw [hT]
    intro r hr
    obtain ⟨i, _, rfl⟩ := List.mem_map.mp hr
    simp [hN]
  have hinv : pyZipTranspose (pyZipTranspose vs) = vs :=
    pyZipTranspose_involutive vs dates.length hvne (List.length_pos.mpr hdne) hM
  have hcne : cols ≠ [] := by
    intro hcon
    rw [hcon] at hN
    simp only [List.length_nil] at hN
    exact hvne (List.length_eq_zero.mp hN.symm)
  have hmain : assembleStatement vs cols dates = some (dedupGo [] (cols.zip vs)) := by
    simp only [assembleStatement, createDataFrame]
    rw [if_pos ⟨htlen, htrow⟩]
    dsimp only []
    rw [if_neg (by simp [hdne, hcne] : ¬(dates = [] ∨ cols = []))]
    simp only [transposeDF, dropDuplicates]
    rw [hinv]
  refine ⟨dedupGo [] (cols.zip vs), hmain, ?_, ?_, dedupGo_sublist _ [], dedupGo_nodup _ [],
    ?_, ?_⟩
  · have := (dedupGo_sublist (cols.zip vs) []).length_le
    rw [List.length_zip, hN, min_self] at this
    exact this
  · intro r hr
    have hrz : r ∈ cols.zip vs := (dedupGo_sublist _ []).subset hr
    rcases r with ⟨la, va⟩
    have := (List.of_mem_zip hrz).2
    exact hM va this
  · intro r hr
    exact dedupGo_covers (cols.zip vs) [] r.2 ⟨r, hr, rfl⟩ (by simp)
  · intro r
    rw [dedupGo_mem_iff]
    simp only [List.not_mem_nil, not_false_iff, true_and]

/-- C3 witness: a concrete 2-row, 1-date grid with distinct value sequences
assembles to itself. -/
theorem c3_assemble_dedup_by_values_witness :
    ((["a".data, "b".data] : List (List Char)).length =
        ([[some 1], [some 2]] : List (List (Option ℚ))).length ∧
      ([[some 1], [some 2]] : List (List (Option ℚ))) ≠ [] ∧
      ([⟨2020, 1, 31⟩] : List SimpleDate) ≠ [] ∧
      ∀ r ∈ ([[some 1], [some 2]] : List (List (Option ℚ))), r.length =
        ([⟨2020, 1, 31⟩] : List SimpleDate).length) ∧
    ∃ g, assembleStatement [[some 1], [some 2]] ["a".data, "b".data] [⟨2020, 1, 31⟩] =
        some g ∧
      g.length ≤ ([[some 1], [some 2]] : List (List (Option ℚ))).length ∧
      (∀ r ∈ g, r.2.length = ([⟨2020, 1, 31⟩] : List SimpleDate).length) ∧
      g.Sublist ((["a".data, "b".data] : List (List Char)).zip [[some 1], [some 2]]) ∧
      (g.map Prod.snd).Nodup ∧
      (∀ r ∈ (["a".data, "b".data] : List (List Char)).zip [[some 1], [some 2]],
        ∃ r' ∈ g, r'.2 = r.2) ∧
      (∀ r, r ∈ g ↔ ∃ i : Nat,
        ((["a".data, "b".data] : List (List Char)).zip [[some 1], [some 2]])[i]? = some r ∧
        ∀ j < i, ∀ r',
          ((["a".data, "b".data] : List (List Char)).zip [[some 1], [some 2]])[j]? =
            some r' → r'.2 ≠ r.2) :=
  ⟨⟨by decide, by decide, by decide, by decide⟩,
    c3_assemble_dedup_by_values [[some 1], [some 2]] ["a".data, "b".data] [⟨2020, 1, 31⟩]
      (by decide) (by decide) (by decide) (by decide)⟩

end Edgar
